import Mathlib

/-
  Verification of the request-item parser and body assembler of the xh
  command-line HTTP client (src/request_items.rs).

  Strings are modelled as List Char.  External crates (serde_json, reqwest,
  mime_guess, the filesystem) are modelled as parameters: a JSON value type J
  with a parser, and an Env record of the fallible external operations.
-/

deriving instance DecidableEq for Except

namespace Xh

/-- Characters that a backslash can escape, from the SPECIAL_CHARS constant. -/
def SPECIAL_CHARS : List Char := ['=', '@', ':', ';', '\\']

/-- Separator candidates in the fixed priority order of the SEPS constant. -/
def SEPS : List (List Char) := [['=', '@'], [':', '=', '@'], ['=', '='], [':', '='], ['='], ['@'], [':']]

/-- Embedding of the unescape helper in RequestItem::from_str: a backslash
followed by a special character yields that character; a backslash followed by
anything else, or at the end, is copied through. -/
def unescape : List Char → List Char
  | [] => []
  | ch :: rest =>
    if ch = '\\' then
      match rest with
      | [] => ['\\']
      | next :: rest2 =>
        if next ∈ SPECIAL_CHARS then next :: unescape rest2
        else '\\' :: next :: unescape rest2
    else ch :: unescape rest

/-- Embedding of str::strip_prefix for the separator probe: returns the
remainder of s after p when p is a prefix of s. -/
def dropPref : List Char → List Char → Option (List Char)
  | [], s => some s
  | _ :: _, [] => none
  | p :: ps, c :: cs => if p = c then dropPref ps cs else none

/-- Trying the separators in SEPS order at the head of s, as the inner for
loop of the split helper does. -/
def findSep (s : List Char) : Option (List Char × List Char) :=
  List.findSome? (fun sep => Option.map (fun v => (sep, v)) (dropPref sep s)) SEPS

/-- Embedding of the loop of the split helper in RequestItem::from_str.
The key accumulator holds the characters already passed over.  On a
backslash the scanner skips the next character without testing separators. -/
def splitAux (key : List Char) : List Char → Option (List Char × List Char × List Char)
  | [] => none
  | ch :: rest =>
    if ch = '\\' then
      match rest with
      | [] => none
      | next :: rest2 => splitAux (key ++ ['\\', next]) rest2
    else
      match findSep (ch :: rest) with
      | some (sep, value) => some (unescape key, sep, unescape value)
      | none => splitAux (key ++ [ch]) rest

/-- Embedding of the split helper in RequestItem::from_str. -/
def split (s : List Char) : Option (List Char × List Char × List Char) :=
  splitAux [] s

/-- The positions at which the scanner tests for a separator: left to right,
advancing two characters whenever it sees a backslash. -/
def scanPositions : List Char → Nat → List Nat
  | [], _ => []
  | ch :: rest, i =>
    if ch = '\\' then
      match rest with
      | [] => []
      | _ :: rest2 => scanPositions rest2 (i + 2)
    else i :: scanPositions rest (i + 1)

/-- Declarative version of the tokenizer, following the wording of the spec:
split at the earliest scan position at which one of the separators begins,
trying the candidates in SEPS order there (findSep), then unescape the key
before and the value after the separator independently. -/
def splitSpec (s : List Char) : Option (List Char × List Char × List Char) :=
  List.findSome?
    (fun i =>
      Option.map (fun sv => (unescape (List.take i s), sv.1, unescape sv.2))
        (findSep (List.drop i s)))
    (scanPositions s 0)

/-- The classified request items, from the RequestItem enum.  The payload of a
JsonField is a parsed JSON value of the abstract type J supplied by the
external JSON library. -/
inductive RequestItem (J : Type) where
  | HttpHeader (key value : List Char)
  | HttpHeaderToUnset (key : List Char)
  | UrlParam (key value : List Char)
  | DataField (key value : List Char)
  | DataFieldFromFile (key value : List Char)
  | JsonField (key : List Char) (value : J)
  | JsonFieldFromFile (key value : List Char)
  | FormFile (key fileName : List Char) (fileType : Option (List Char))
deriving DecidableEq, Repr

/-- Outcomes of RequestItem::from_str: a clap error for an invalid item, a
clap error wrapping a serde_json parse failure, or the unreachable final
match arm (a panic in the source). -/
inductive ParseError where
  | notAnItem
  | jsonErr
  | hitDefaultArm
deriving DecidableEq, Repr

/-- The literal substring on which a FormFile value is split. -/
def TYPE_SEP : List Char := [';', 't', 'y', 'p', 'e', '=']

/-- Embedding of value.rsplitn(2, ";type=") as used in the at-sign arm of
RequestItem::from_str: split at the last occurrence of TYPE_SEP, returning
(text before, text after), or none when TYPE_SEP does not occur. -/
def lastTypeSplit : List Char → Option (List Char × List Char)
  | [] => none
  | c :: rest =>
    match lastTypeSplit rest with
    | some (f, t) => some (c :: f, t)
    | none =>
      match dropPref TYPE_SEP (c :: rest) with
      | some t => some ([], t)
      | none => none

/-- Embedding of str::strip_suffix with a semicolon. -/
def stripSuffixSemi (s : List Char) : Option (List Char) :=
  match s.getLast? with
  | some ';' => some s.dropLast
  | _ => none

/-- Embedding of RequestItem::from_str.  The serde_json parser is the
parameter pj; pj returning none models a serde_json error. -/
def from_str {J : Type} (pj : List Char → Option J) (s : List Char) : Except ParseError (RequestItem J) :=
  match split s with
  | some (key, sep, value) =>
    match sep with
    | ['=', '='] => .ok (.UrlParam key value)
    | ['='] => .ok (.DataField key value)
    | [':', '='] =>
      match pj value with
      | some v => .ok (.JsonField key v)
      | none => .error .jsonErr
    | ['@'] =>
      match lastTypeSplit value with
      | some (f, t) => .ok (.FormFile key f (some t))
      | none => .ok (.FormFile key value none)
    | [':'] => if value = [] then .ok (.HttpHeaderToUnset key) else .ok (.HttpHeader key value)
    | ['=', '@'] => .ok (.DataFieldFromFile key value)
    | [':', '=', '@'] => .ok (.JsonFieldFromFile key value)
    | _ => .error .hitDefaultArm
  | none =>
    match stripSuffixSemi s with
    | some header => .ok (.HttpHeader header [])
    | none => .error .notAnItem

/-- A JSON parser that always fails, used to instantiate from_str at inputs
whose classification never consults the JSON library. -/
def pjNone : List Char → Option Unit := fun _ => none

/-- Whether a token ends in an unescaped semicolon under the scanning rule of
the tokenizer (a backslash protects the following character).  This follows
the wording of the spec; the source's fallback does not perform this check. -/
def endsUnescSemi : List Char → Bool
  | [] => false
  | [c] => c = ';'
  | '\\' :: _ :: rest => endsUnescSemi rest
  | _ :: rest => endsUnescSemi rest

/-- Modelled from the spec: the request mode enum of crate::cli::RequestType,
whose declaration is outside this file; its three variants Json, Form and
Multipart are the ones matched on in RequestItems::body. -/
inductive RequestType where
  | Json
  | Form
  | Multipart
deriving DecidableEq, Repr

/-- The two HTTP methods produced by the method pickers. -/
inductive Method where
  | GET
  | POST
deriving DecidableEq, Repr

/-- A part of a multipart form: an inline text field or a streamed file,
mirroring what form.text and form.part add in body_as_multipart. -/
inductive Part where
  | text (key value : List Char)
  | filePart (key fileName : List Char) (fileType : Option (List Char))
deriving DecidableEq, Repr

/-- The Body enum.  The JSON map of serde_json is modelled as an association
list, the multipart form as its list of parts, the file body by its path and
resolved media type. -/
inductive Body (J : Type) where
  | Json (map : List (List Char × J))
  | Form (fields : List (List Char × List Char))
  | Multipart (parts : List Part)
  | Raw (data : List Nat)
  | File (fileName : List Char) (fileType : Option (List Char))
deriving DecidableEq, Repr

/-- Errors of the body builders: the two structured-value mode errors, the
three body-from-file mode errors, propagated I/O, JSON-parse, mime and
header-value failures, plus a marker for the panics
(the two unreachable arms, the assert and the expect). -/
inductive BodyError where
  | jsonInForm
  | jsonInMultipart
  | fileFieldNonEmptyKey
  | mixedFileAndFields
  | multipleFiles
  | ioErr (path : List Char)
  | jsonParseErr
  | mimeErr
  | headerValueErr
  | panicked
deriving DecidableEq, Repr

/-- The fallible external operations used by the body builders: the
filesystem read, the serde_json parser and string constructor, whether a file
can be opened as a part, whether a mime string and header value are accepted,
and the media-type guess from a path.  A none or false result models the
corresponding external failure. -/
structure Env (J : Type) where
  readToString : List Char → Option (List Char)
  parseJson : List Char → Option J
  strVal : List Char → J
  openOk : List Char → Bool
  mimeOk : List Char → Bool
  mimeGuess : List Char → Option (List Char)
  headerValueOk : List Char → Bool

/-- Whether an item is a JsonField or JsonFieldFromFile. -/
def isJsonItem {J : Type} : RequestItem J → Bool
  | .JsonField _ _ => true
  | .JsonFieldFromFile _ _ => true
  | _ => false

/-- Whether an item is a DataField, DataFieldFromFile, JsonField or
JsonFieldFromFile. -/
def isKeyedField {J : Type} : RequestItem J → Bool
  | .DataField _ _ => true
  | .DataFieldFromFile _ _ => true
  | .JsonField _ _ => true
  | .JsonFieldFromFile _ _ => true
  | _ => false

/-- Whether an item is any data, JSON or file item, the kinds that make the
items-based method picker return POST. -/
def isFieldItem {J : Type} : RequestItem J → Bool
  | .DataField _ _ => true
  | .DataFieldFromFile _ _ => true
  | .JsonField _ _ => true
  | .JsonFieldFromFile _ _ => true
  | .FormFile _ _ _ => true
  | _ => false

/-- Whether an item is a FormFile with a non-empty key. -/
def isNonEmptyKeyFile {J : Type} : RequestItem J → Bool
  | .FormFile key _ _ => !key.isEmpty
  | _ => false

/-- Whether an item is a FormFile with an empty key, a whole-body file. -/
def isEmptyKeyFile {J : Type} : RequestItem J → Bool
  | .FormFile key _ _ => key.isEmpty
  | _ => false

/-- Insertion into the external serde_json map: replaces the value at an
existing key, otherwise appends. -/
def insertAssoc {J : Type} : List (List Char × J) → List Char → J → List (List Char × J)
  | [], k, v => [(k, v)]
  | (k2, v2) :: rest, k, v =>
    if k2 = k then (k2, v) :: rest else (k2, v2) :: insertAssoc rest k v

/-- Whether any FormFile item is present, from RequestItems::has_form_files. -/
def has_form_files {J : Type} (items : List (RequestItem J)) : Bool :=
  items.any fun item =>
    match item with
    | .FormFile _ _ _ => true
    | _ => false

/-- The loop of RequestItems::body_as_json with the map accumulator made
explicit.  The FormFile arm is the unreachable panic of the source. -/
def bodyAsJsonAux {J : Type} (env : Env J) : List (RequestItem J) → List (List Char × J) → Except BodyError (Body J)
  | [], acc => .ok (.Json acc)
  | item :: rest, acc =>
    match item with
    | .JsonField key value => bodyAsJsonAux env rest (insertAssoc acc key value)
    | .JsonFieldFromFile key path =>
      match env.readToString path with
      | none => .error (.ioErr path)
      | some contents =>
        match env.parseJson contents with
        | none => .error .jsonParseErr
        | some v => bodyAsJsonAux env rest (insertAssoc acc key v)
    | .DataField key value => bodyAsJsonAux env rest (insertAssoc acc key (env.strVal value))
    | .DataFieldFromFile key path =>
      match env.readToString path with
      | none => .error (.ioErr path)
      | some contents => bodyAsJsonAux env rest (insertAssoc acc key (env.strVal contents))
    | .FormFile _ _ _ => .error .panicked
    | .HttpHeader _ _ => bodyAsJsonAux env rest acc
    | .HttpHeaderToUnset _ => bodyAsJsonAux env rest acc
    | .UrlParam _ _ => bodyAsJsonAux env rest acc

/-- Embedding of RequestItems::body_as_json. -/
def body_as_json {J : Type} (env : Env J) (items : List (RequestItem J)) : Except BodyError (Body J) :=
  bodyAsJsonAux env items []

/-- The loop of RequestItems::body_as_form with the text_fields accumulator
made explicit.  The FormFile arm is the unreachable panic of the source. -/
def bodyAsFormAux {J : Type} (env : Env J) : List (RequestItem J) → List (List Char × List Char) → Except BodyError (Body J)
  | [], acc => .ok (.Form acc)
  | item :: rest, acc =>
    match item with
    | .JsonField _ _ => .error .jsonInForm
    | .JsonFieldFromFile _ _ => .error .jsonInForm
    | .DataField key value => bodyAsFormAux env rest (acc ++ [(key, value)])
    | .DataFieldFromFile key path =>
      match env.readToString path with
      | none => .error (.ioErr path)
      | some contents => bodyAsFormAux env rest (acc ++ [(key, contents)])
    | .FormFile _ _ _ => .error .panicked
    | .HttpHeader _ _ => bodyAsFormAux env rest acc
    | .HttpHeaderToUnset _ => bodyAsFormAux env rest acc
    | .UrlParam _ _ => bodyAsFormAux env rest acc

/-- Embedding of RequestItems::body_as_form. -/
def body_as_form {J : Type} (env : Env J) (items : List (RequestItem J)) : Except BodyError (Body J) :=
  bodyAsFormAux env items []

/-- The loop of RequestItems::body_as_multipart with the form accumulator
made explicit.  A FormFile becomes a file part via file_to_part (which can
fail to open the file) and mime_str (which can reject the declared type). -/
def bodyAsMultipartAux {J : Type} (env : Env J) : List (RequestItem J) → List Part → Except BodyError (Body J)
  | [], acc => .ok (.Multipart acc)
  | item :: rest, acc =>
    match item with
    | .JsonField _ _ => .error .jsonInMultipart
    | .JsonFieldFromFile _ _ => .error .jsonInMultipart
    | .DataField key value => bodyAsMultipartAux env rest (acc ++ [.text key value])
    | .DataFieldFromFile key path =>
      match env.readToString path with
      | none => .error (.ioErr path)
      | some contents => bodyAsMultipartAux env rest (acc ++ [.text key contents])
    | .FormFile key fileName fileType =>
      if env.openOk fileName then
        match fileType with
        | some ty =>
          if env.mimeOk ty then bodyAsMultipartAux env rest (acc ++ [.filePart key fileName (some ty)])
          else .error .mimeErr
        | none => bodyAsMultipartAux env rest (acc ++ [.filePart key fileName none])
      else .error (.ioErr fileName)
    | .HttpHeader _ _ => bodyAsMultipartAux env rest acc
    | .HttpHeaderToUnset _ => bodyAsMultipartAux env rest acc
    | .UrlParam _ _ => bodyAsMultipartAux env rest acc

/-- Embedding of RequestItems::body_as_multipart. -/
def body_as_multipart {J : Type} (env : Env J) (items : List (RequestItem J)) : Except BodyError (Body J) :=
  bodyAsMultipartAux env items []

/-- The loop of RequestItems::body_from_file with the body accumulator made
explicit.  The non-empty-key branch of the FormFile arm is the assert of the
source and the empty final accumulator is the expect, both panics. -/
def bodyFromFileAux {J : Type} (env : Env J) : List (RequestItem J) → Option (Body J) → Except BodyError (Body J)
  | [], acc =>
    match acc with
    | some b => .ok b
    | none => .error .panicked
  | item :: rest, acc =>
    match item with
    | .DataField _ _ => .error .mixedFileAndFields
    | .JsonField _ _ => .error .mixedFileAndFields
    | .DataFieldFromFile _ _ => .error .mixedFileAndFields
    | .JsonFieldFromFile _ _ => .error .mixedFileAndFields
    | .FormFile key fileName fileType =>
      if key = [] then
        match acc with
        | some _ => .error .multipleFiles
        | none =>
          match fileType.orElse (fun _ => env.mimeGuess fileName) with
          | some ty =>
            if env.headerValueOk ty then bodyFromFileAux env rest (some (.File fileName (some ty)))
            else .error .headerValueErr
          | none => bodyFromFileAux env rest (some (.File fileName none))
      else .error .panicked
    | .HttpHeader _ _ => bodyFromFileAux env rest acc
    | .HttpHeaderToUnset _ => bodyFromFileAux env rest acc
    | .UrlParam _ _ => bodyFromFileAux env rest acc

/-- Embedding of RequestItems::body_from_file: first the upfront check that
no FormFile has a non-empty key, then the fold over the items. -/
def body_from_file {J : Type} (env : Env J) (items : List (RequestItem J)) : Except BodyError (Body J) :=
  if items.any isNonEmptyKeyFile then
    .error .fileFieldNonEmptyKey
  else bodyFromFileAux env items none

/-- Embedding of the dispatch table of RequestItems::body. -/
def body {J : Type} (env : Env J) (items : List (RequestItem J)) : RequestType → Except BodyError (Body J)
  | .Multipart => body_as_multipart env items
  | .Form => if has_form_files items then body_as_multipart env items else body_as_form env items
  | .Json => if has_form_files items then body_from_file env items else body_as_json env items

/-- Embedding of Body::is_empty. -/
def Body.is_empty {J : Type} : Body J → Bool
  | .Json m => m.isEmpty
  | .Form l => l.isEmpty
  | .Raw d => d.isEmpty
  | .Multipart _ => false
  | .File _ _ => false

/-- Embedding of Body::pick_method. -/
def Body.pick_method {J : Type} (b : Body J) : Method :=
  if b.is_empty then .GET else .POST

/-- Embedding of Body::is_multipart. -/
def Body.is_multipart {J : Type} : Body J → Bool
  | .Multipart _ => true
  | _ => false

/-- Embedding of RequestItems::is_multipart, the items-based helper. -/
def RequestItems.is_multipart {J : Type} (items : List (RequestItem J)) : RequestType → Bool
  | .Multipart => true
  | .Form => has_form_files items
  | .Json => false

/-- The item loop of RequestItems::pick_method: headers and URL parameters
are passed over, any other item returns POST. -/
def pickMethodLoop {J : Type} : List (RequestItem J) → Method
  | [] => .GET
  | item :: rest =>
    match item with
    | .HttpHeader _ _ => pickMethodLoop rest
    | .HttpHeaderToUnset _ => pickMethodLoop rest
    | .UrlParam _ _ => pickMethodLoop rest
    | .DataField _ _ => .POST
    | .DataFieldFromFile _ _ => .POST
    | .JsonField _ _ => .POST
    | .JsonFieldFromFile _ _ => .POST
    | .FormFile _ _ _ => .POST

/-- Embedding of RequestItems::pick_method, the items-based helper. -/
def RequestItems.pick_method {J : Type} (items : List (RequestItem J)) (mode : RequestType) : Method :=
  if mode = .Multipart then .POST else pickMethodLoop items

/-- An environment over the trivial JSON type in which every external
operation succeeds, used to instantiate theorems at concrete inputs. -/
def envU : Env Unit :=
  ⟨fun _ => some [], fun _ => some (), fun _ => (), fun _ => true, fun _ => true, fun _ => none, fun _ => true⟩

/-- An environment in which no external operation fails: every file read
succeeds, every file opens, every mime string and header value is accepted.
The JSON parser is unconstrained. -/
def Env.good {J : Type} (env : Env J) : Prop :=
  (∀ p, (env.readToString p).isSome) ∧
  (∀ p, env.openOk p = true) ∧
  (∀ t, env.mimeOk t = true) ∧
  (∀ v, env.headerValueOk v = true)

/-- The four body representations the dispatch table can choose, plus the
raw representation that RequestItems::body never builds. -/
inductive BodyShape where
  | json
  | form
  | multipart
  | raw
  | file
deriving DecidableEq, Repr

/-- The representation a Body value uses. -/
def Body.shape {J : Type} : Body J → BodyShape
  | .Json _ => .json
  | .Form _ => .form
  | .Multipart _ => .multipart
  | .Raw _ => .raw
  | .File _ _ => .file

/-- The representation the dispatch table of the spec prescribes for a mode
and the presence of FormFile items: Multipart always multipart, Form
multipart with files and form without, JSON body-from-file with files and
JSON without. -/
def expectedShape (mode : RequestType) (hasFiles : Bool) : BodyShape :=
  match mode with
  | .Multipart => .multipart
  | .Form => if hasFiles then .multipart else .form
  | .Json => if hasFiles then .file else .json

/-- Which body errors are mode-incompatibility errors: the structured-value
errors of the form and multipart builders and the three errors of the
body-from-file builder. -/
def isModeIncompat : BodyError → Bool
  | .jsonInForm => true
  | .jsonInMultipart => true
  | .fileFieldNonEmptyKey => true
  | .mixedFileAndFields => true
  | .multipleFiles => true
  | _ => false

/-- The situations in which the spec says a mode-incompatibility error is
raised: a structured value while building a form or multipart body, and in
the body-from-file path a non-empty-key file, a keyed field, or more than
one whole-body file. -/
def incompatSituation {J : Type} (items : List (RequestItem J)) (mode : RequestType) : Prop :=
  (expectedShape mode (has_form_files items) = .form ∨
     expectedShape mode (has_form_files items) = .multipart) ∧ items.any isJsonItem = true ∨
  mode = .Json ∧ has_form_files items = true ∧
    (items.any isNonEmptyKeyFile = true ∨ items.any isKeyedField = true ∨
      2 ≤ items.countP (fun i => isEmptyKeyFile i))

/-
  Helper lemmas.
-/

theorem unescape_nil : unescape [] = [] := rfl

theorem unescape_bs1 : unescape ['\\'] = ['\\'] := rfl

theorem unescape_bs (next : Char) (rest2 : List Char) :
    unescape ('\\' :: next :: rest2) =
      if next ∈ SPECIAL_CHARS then next :: unescape rest2
      else '\\' :: next :: unescape rest2 := by
  simp [unescape]

theorem unescape_cons (c : Char) (rest : List Char) (h : ¬c = '\\') :
    unescape (c :: rest) = c :: unescape rest := by
  cases rest <;> simp [unescape, h]

theorem splitAux_nil (key : List Char) : splitAux key [] = none := rfl

theorem splitAux_bs1 (key : List Char) : splitAux key ['\\'] = none := by
  simp [splitAux]

theorem splitAux_bs (key : List Char) (next : Char) (rest2 : List Char) :
    splitAux key ('\\' :: next :: rest2) = splitAux (key ++ ['\\', next]) rest2 := by
  simp [splitAux]

theorem splitAux_cons (key : List Char) (ch : Char) (rest : List Char) (h : ¬ch = '\\') :
    splitAux key (ch :: rest) =
      match findSep (ch :: rest) with
      | some (sep, value) => some (unescape key, sep, unescape value)
      | none => splitAux (key ++ [ch]) rest := by
  cases rest <;> simp [splitAux, h]

theorem scanPositions_nil (i : Nat) : scanPositions [] i = [] := rfl

theorem scanPositions_bs1 (i : Nat) : scanPositions ['\\'] i = [] := by
  simp [scanPositions]

theorem scanPositions_bs (next : Char) (rest2 : List Char) (i : Nat) :
    scanPositions ('\\' :: next :: rest2) i = scanPositions rest2 (i + 2) := by
  simp [scanPositions]

theorem scanPositions_cons (ch : Char) (rest : List Char) (i : Nat) (h : ¬ch = '\\') :
    scanPositions (ch :: rest) i = i :: scanPositions rest (i + 1) := by
  cases rest <;> simp [scanPositions, h]

theorem dropPref_eq_some : ∀ (p s r : List Char), dropPref p s = some r ↔ s = p ++ r := by
  intro p
  induction p with
  | nil => intro s r; simp [dropPref]
  | cons a ps ih =>
    intro s r
    cases s with
    | nil => simp [dropPref]
    | cons c cs =>
      by_cases hac : a = c
      · subst hac
        simp [dropPref, ih]
      · simp only [dropPref, if_neg hac, List.cons_append, List.cons.injEq]
        constructor
        · intro h
          simp at h
        · intro h
          exact absurd h.1.symm hac

theorem stripSuffixSemi_eq_some : ∀ (s k : List Char), stripSuffixSemi s = some k ↔ s = k ++ [';'] := by
  intro s k
  rcases List.eq_nil_or_concat s with rfl | ⟨l, a, rfl⟩
  · simp [stripSuffixSemi]
  · rw [List.concat_eq_append]
    by_cases ha : a = ';'
    · subst ha
      simp [stripSuffixSemi, List.getLast?_concat, List.dropLast_concat]
    · simp only [stripSuffixSemi, List.getLast?_concat]
      constructor
      · intro h
        simp [ha] at h
      · intro h
        obtain ⟨-, h2⟩ := List.append_inj' h rfl
        simp at h2
        exact absurd h2 ha

theorem findSep_shape : ∀ (s sep v : List Char), findSep s = some (sep, v) → sep ∈ SEPS ∧ s = sep ++ v := by
  intro s sep v h
  obtain ⟨a, ha, hfa⟩ := List.exists_of_findSome?_eq_some h
  cases hd : dropPref a s with
  | none => rw [hd] at hfa; simp at hfa
  | some r =>
    rw [hd] at hfa
    simp only [Option.map_some', Option.some.injEq, Prod.mk.injEq] at hfa
    rcases hfa with ⟨rfl, rfl⟩
    exact ⟨ha, (dropPref_eq_some _ _ _).mp hd⟩

theorem split_sep_mem : ∀ (key s k sep v : List Char), splitAux key s = some (k, sep, v) → sep ∈ SEPS := by
  intro key s
  induction key, s using splitAux.induct with
  | case1 key => intro k sep v h; simp [splitAux] at h
  | case2 key => intro k sep v h; simp [splitAux] at h
  | case3 key next rest2 ih =>
    intro k sep v h
    rw [splitAux_bs] at h
    exact ih k sep v h
  | case4 key ch rest hne sep0 v0 hfs =>
    intro k sep v h
    rw [splitAux_cons key ch rest hne, hfs] at h
    simp only [Option.some.injEq, Prod.mk.injEq] at h
    obtain ⟨-, h2, -⟩ := h
    subst h2
    exact (findSep_shape _ _ _ hfs).1
  | case5 key ch rest hne hfs ih =>
    intro k sep v h
    rw [splitAux_cons key ch rest hne, hfs] at h
    exact ih k sep v h

/-
  C5: the escape scanner.
-/

/-- C5: the escape scanner maps a backslash followed by one of the five
special characters to that character with the backslash consumed, copies a
backslash followed by any other character through unchanged with the
backslash kept, copies a trailing backslash through, and copies every other
character through unchanged. -/
theorem unescape_rule :
    unescape [] = [] ∧
    (∀ (c : Char) (rest : List Char), c ∈ SPECIAL_CHARS →
      unescape ('\\' :: c :: rest) = c :: unescape rest) ∧
    (∀ (c : Char) (rest : List Char), c ∉ SPECIAL_CHARS →
      unescape ('\\' :: c :: rest) = '\\' :: c :: unescape rest) ∧
    unescape ['\\'] = ['\\'] ∧
    (∀ (c : Char) (rest : List Char), c ≠ '\\' → unescape (c :: rest) = c :: unescape rest) := by
  refine ⟨rfl, ?_, ?_, rfl, ?_⟩
  · intro c rest h
    rw [unescape_bs, if_pos h]
  · intro c rest h
    rw [unescape_bs, if_neg h]
  · intro c rest h
    exact unescape_cons c rest h

/-- Witness for the escape-scanner rule at concrete inputs. -/
theorem unescape_rule_witness :
    ('=' ∈ SPECIAL_CHARS ∧ unescape ['\\', '=', 'a'] = '=' :: unescape ['a']) ∧
    ('x' ∉ SPECIAL_CHARS ∧ unescape ['\\', 'x'] = '\\' :: 'x' :: unescape []) ∧
    ('a' ≠ '\\' ∧ unescape ['a', 'b'] = 'a' :: unescape ['b']) :=
  ⟨⟨by decide, unescape_rule.2.1 '=' ['a'] (by decide)⟩,
   ⟨by decide, unescape_rule.2.2.1 'x' [] (by decide)⟩,
   ⟨by decide, unescape_rule.2.2.2.2 'a' ['b'] (by decide)⟩⟩

/-
  C1: the no-separator fallback.
-/

/-- C1 counterexample: on a backslash-semicolon ending, the scan finds no
separator and the final semicolon is escaped, yet parsing succeeds; and on a
token with an escaped equals sign before an unescaped final semicolon, the
produced header name keeps the backslash rather than being unescaped. -/
theorem from_str_no_sep_cex :
    split ['a', '\\', ';'] = none ∧
    endsUnescSemi ['a', '\\', ';'] = false ∧
    from_str pjNone ['a', '\\', ';'] = .ok (.HttpHeader ['a', '\\'] []) ∧
    split ['f', '\\', '=', 'o', ';'] = none ∧
    endsUnescSemi ['f', '\\', '=', 'o', ';'] = true ∧
    from_str pjNone ['f', '\\', '=', 'o', ';'] = .ok (.HttpHeader ['f', '\\', '=', 'o'] []) ∧
    unescape ['f', '\\', '=', 'o'] ≠ ['f', '\\', '=', 'o'] := by
  decide

/-- C1 as amended: when the scan finds no separator, parsing succeeds if and
only if the token ends with a semicolon, whether or not that semicolon is
escaped, and on success it yields HttpHeader over the raw, not unescaped,
prefix before the final semicolon; otherwise it fails with a syntax error. -/
theorem from_str_no_sep : ∀ (J : Type) (pj : List Char → Option J) (s : List Char),
    split s = none →
    (∀ k, s = k ++ [';'] → from_str pj s = .ok (.HttpHeader k [])) ∧
    ((¬∃ k, s = k ++ [';']) → from_str pj s = .error .notAnItem) := by
  intro J pj s hsp
  constructor
  · intro k hk
    have hss : stripSuffixSemi s = some k := (stripSuffixSemi_eq_some s k).mpr hk
    simp [from_str, hsp, hss]
  · intro hnk
    have hss : stripSuffixSemi s = none := by
      cases h : stripSuffixSemi s with
      | none => rfl
      | some k => exact absurd ⟨k, (stripSuffixSemi_eq_some s k).mp h⟩ hnk
    simp [from_str, hsp, hss]

/-- Witness for the amended no-separator fallback at a concrete input. -/
theorem from_str_no_sep_witness :
    split ['f', ';'] = none ∧ from_str pjNone ['f', ';'] = .ok (.HttpHeader ['f'] []) :=
  ⟨by decide, (from_str_no_sep Unit pjNone ['f', ';'] (by decide)).1 ['f'] rfl⟩

/-
  C9: determinism of body assembly.
-/

/-- C9: assembling the body from two structurally equal, independent copies
of a collection with the same mode yields structurally equal results, both
for successful bodies and for errors; the assembler is a pure function of
the collection, the mode and the external environment. -/
theorem body_deterministic : ∀ (J : Type) (env : Env J) (items1 items2 : List (RequestItem J))
    (mode : RequestType), items1 = items2 → body env items1 mode = body env items2 mode := by
  intro J env items1 items2 mode h
  rw [h]

/-- Witness for determinism of body assembly at a concrete collection. -/
theorem body_deterministic_witness :
    body envU [RequestItem.DataField ['a'] ['b']] .Form
      = body envU [RequestItem.DataField ['a'] ['b']] .Form :=
  body_deterministic Unit envU _ _ .Form rfl

/-
  C3: the tokenizer agrees with its declarative description.
-/

theorem scanPositions_shift : ∀ (s : List Char) (n m : Nat),
    scanPositions s (m + n) = (scanPositions s n).map (fun i => m + i) := by
  intro s n
  induction s, n using scanPositions.induct with
  | case1 i => intro m; simp [scanPositions_nil]
  | case2 i => intro m; simp [scanPositions_bs1]
  | case3 i next rest2 ih =>
    intro m
    rw [scanPositions_bs, scanPositions_bs]
    have h2 : m + i + 2 = m + (i + 2) := by omega
    rw [h2, ih m]
  | case4 ch rest i hne ih =>
    intro m
    rw [scanPositions_cons _ _ _ hne, scanPositions_cons _ _ _ hne]
    simp only [List.map_cons]
    have h1 : m + i + 1 = m + (i + 1) := by omega
    rw [h1, ih m]

theorem splitAux_eq_spec : ∀ (key s : List Char),
    splitAux key s =
      List.findSome?
        (fun i =>
          Option.map (fun sv => (unescape (key ++ List.take i s), sv.1, unescape sv.2))
            (findSep (List.drop i s)))
        (scanPositions s 0) := by
  intro key s
  induction key, s using splitAux.induct with
  | case1 key => simp [splitAux_nil, scanPositions_nil]
  | case2 key => simp [splitAux_bs1, scanPositions_bs1]
  | case3 key next rest2 ih =>
    rw [splitAux_bs, ih, scanPositions_bs]
    rw [show scanPositions rest2 2 = (scanPositions rest2 0).map (fun i => 2 + i) from
      scanPositions_shift rest2 0 2]
    rw [List.findSome?_map]
    apply congrArg (fun f => List.findSome? f (scanPositions rest2 0))
    funext i
    show Option.map (fun sv => (unescape ((key ++ ['\\', next]) ++ List.take i rest2), sv.1, unescape sv.2))
        (findSep (List.drop i rest2))
      = Option.map
          (fun sv => (unescape (key ++ List.take (2 + i) ('\\' :: next :: rest2)), sv.1, unescape sv.2))
          (findSep (List.drop (2 + i) ('\\' :: next :: rest2)))
    have hdrop : List.drop (2 + i) ('\\' :: next :: rest2) = List.drop i rest2 := by
      rw [Nat.add_comm 2 i]
      rfl
    have htake : List.take (2 + i) ('\\' :: next :: rest2) = '\\' :: next :: List.take i rest2 := by
      rw [Nat.add_comm 2 i]
      rfl
    rw [hdrop, htake]
    have happ : (key ++ ['\\', next]) ++ List.take i rest2 = key ++ '\\' :: next :: List.take i rest2 := by
      simp
    rw [happ]
  | case4 key ch rest hne sep0 v0 hfs =>
    rw [splitAux_cons key ch rest hne, hfs, scanPositions_cons _ _ _ hne]
    rw [List.findSome?_cons]
    simp only [List.take_zero, List.drop_zero, List.append_nil, hfs, Option.map_some']
  | case5 key ch rest hne hfs ih =>
    rw [splitAux_cons key ch rest hne, hfs, ih, scanPositions_cons _ _ _ hne]
    rw [List.findSome?_cons]
    simp only [List.take_zero, List.drop_zero, List.append_nil, hfs, Option.map_none']
    rw [show scanPositions rest 1 = (scanPositions rest 0).map (fun i => 1 + i) from
      scanPositions_shift rest 0 1]
    rw [List.findSome?_map]
    apply congrArg (fun f => List.findSome? f (scanPositions rest 0))
    funext i
    show Option.map (fun sv => (unescape ((key ++ [ch]) ++ List.take i rest), sv.1, unescape sv.2))
        (findSep (List.drop i rest))
      = Option.map
          (fun sv => (unescape (key ++ List.take (1 + i) (ch :: rest)), sv.1, unescape sv.2))
          (findSep (List.drop (1 + i) (ch :: rest)))
    have hdrop : List.drop (1 + i) (ch :: rest) = List.drop i rest := by
      rw [Nat.add_comm 1 i]
      rfl
    have htake : List.take (1 + i) (ch :: rest) = ch :: List.take i rest := by
      rw [Nat.add_comm 1 i]
      rfl
    rw [hdrop, htake]
    have happ : (key ++ [ch]) ++ List.take i rest = key ++ ch :: List.take i rest := by
      simp
    rw [happ]

/-- C3: the tokenizer splits at the earliest scan position at which a
separator begins, where the scan advances two characters on every backslash;
at that position the candidates are probed in the fixed SEPS order, which
puts every compound separator before its single-character prefix; the key
and the value are then unescaped independently.  splitSpec is the literal
transcription of that description. -/
theorem split_eq_splitSpec : ∀ (s : List Char), split s = splitSpec s := by
  intro s
  have h := splitAux_eq_spec [] s
  simpa [split, splitSpec] using h

/-
  C10: totality of parsing; the final match arm is dead.
-/

/-- C10: parsing a request item always returns either a classified item, the
syntax error, or the JSON-literal parse error; the final match arm for an
unrecognized separator is never reached, because every separator the scanner
returns is one of the seven candidates. -/
theorem from_str_total : ∀ (J : Type) (pj : List Char → Option J) (s : List Char),
    (∃ item, from_str pj s = .ok item) ∨
    from_str pj s = .error .notAnItem ∨ from_str pj s = .error .jsonErr := by
  intro J pj s
  cases hsp : split s with
  | none =>
    cases hss : stripSuffixSemi s with
    | none =>
      right; left
      simp [from_str, hsp, hss]
    | some k =>
      left
      exact ⟨.HttpHeader k [], by simp [from_str, hsp, hss]⟩
  | some ksv =>
    obtain ⟨k, sep, v⟩ := ksv
    have hm : sep ∈ SEPS := split_sep_mem [] s k sep v hsp
    simp only [SEPS, List.mem_cons, List.not_mem_nil, or_false] at hm
    rcases hm with rfl | rfl | rfl | rfl | rfl | rfl | rfl
    · left; exact ⟨.DataFieldFromFile k v, by simp [from_str, hsp]⟩
    · left; exact ⟨.JsonFieldFromFile k v, by simp [from_str, hsp]⟩
    · left; exact ⟨.UrlParam k v, by simp [from_str, hsp]⟩
    · cases hpj : pj v with
      | some jv => left; exact ⟨.JsonField k jv, by simp [from_str, hsp, hpj]⟩
      | none => right; right; simp [from_str, hsp, hpj]
    · left; exact ⟨.DataField k v, by simp [from_str, hsp]⟩
    · cases hlt : lastTypeSplit v with
      | some ft =>
        left
        exact ⟨.FormFile k ft.1 (some ft.2), by simp [from_str, hsp, hlt]⟩
      | none => left; exact ⟨.FormFile k v none, by simp [from_str, hsp, hlt]⟩
    · by_cases hv : v = []
      · left; exact ⟨.HttpHeaderToUnset k, by simp [from_str, hsp, hv]⟩
      · left; exact ⟨.HttpHeader k v, by simp [from_str, hsp, hv]⟩

/-
  C2: the last-occurrence rule for the type suffix of a FormFile value.
-/

theorem occursTS_cons : ∀ (c : Char) (rest : List Char),
    (∃ a b, c :: rest = a ++ TYPE_SEP ++ b) ↔
      (∃ b, c :: rest = TYPE_SEP ++ b) ∨ (∃ a b, rest = a ++ TYPE_SEP ++ b) := by
  intro c rest
  constructor
  · rintro ⟨a, b, h⟩
    cases a with
    | nil =>
      left
      exact ⟨b, by simpa using h⟩
    | cons a0 a2 =>
      right
      simp only [List.cons_append, List.append_assoc, List.cons.injEq] at h
      exact ⟨a2, b, by rw [h.2]; simp⟩
  · rintro (⟨b, h⟩ | ⟨a, b, h⟩)
    · exact ⟨[], b, by simpa using h⟩
    · exact ⟨c :: a, b, by rw [h]; simp⟩

theorem lastTypeSplit_none : ∀ (v : List Char),
    lastTypeSplit v = none ↔ ¬∃ a b, v = a ++ TYPE_SEP ++ b := by
  intro v
  induction v with
  | nil =>
    refine ⟨fun _ => ?_, fun _ => rfl⟩
    rintro ⟨a, b, h⟩
    have hl := congrArg List.length h
    simp [TYPE_SEP] at hl
    omega
  | cons c rest ih =>
    cases hl : lastTypeSplit rest with
    | some p =>
      obtain ⟨f, t⟩ := p
      simp only [lastTypeSplit, hl]
      constructor
      · intro h
        simp at h
      · intro h
        exfalso
        apply h
        apply (occursTS_cons c rest).mpr
        right
        by_contra hno
        rw [ih.mpr hno] at hl
        simp at hl
    | none =>
      cases hd : dropPref TYPE_SEP (c :: rest) with
      | some t =>
        simp only [lastTypeSplit, hl, hd]
        constructor
        · intro h
          simp at h
        · intro h
          exfalso
          apply h
          exact (occursTS_cons c rest).mpr (Or.inl ⟨t, (dropPref_eq_some _ _ _).mp hd⟩)
      | none =>
        simp only [lastTypeSplit, hl, hd]
        constructor
        · intro _ hocc
          rcases (occursTS_cons c rest).mp hocc with ⟨b, hb⟩ | hrest
          · have := (dropPref_eq_some TYPE_SEP (c :: rest) b).mpr hb
            rw [hd] at this
            simp at this
          · exact absurd hrest (ih.mp hl)
        · intro _
          trivial

theorem lastTypeSplit_some : ∀ (v f t : List Char), lastTypeSplit v = some (f, t) →
    v = f ++ TYPE_SEP ++ t ∧ ¬∃ a b, t = a ++ TYPE_SEP ++ b := by
  intro v
  induction v with
  | nil =>
    intro f t h
    simp [lastTypeSplit] at h
  | cons c rest ih =>
    intro f t h
    cases hl : lastTypeSplit rest with
    | some p =>
      obtain ⟨f2, t2⟩ := p
      rw [show lastTypeSplit (c :: rest) =
          match lastTypeSplit rest with
          | some (f, t) => some (c :: f, t)
          | none =>
            match dropPref TYPE_SEP (c :: rest) with
            | some t => some ([], t)
            | none => none
        from rfl, hl] at h
      simp only [Option.some.injEq, Prod.mk.injEq] at h
      obtain ⟨rfl, rfl⟩ := h
      obtain ⟨ihe, ihn⟩ := ih f2 t2 hl
      refine ⟨?_, ihn⟩
      rw [ihe]
      simp
    | none =>
      cases hd : dropPref TYPE_SEP (c :: rest) with
      | some t0 =>
        rw [show lastTypeSplit (c :: rest) =
            match lastTypeSplit rest with
            | some (f, t) => some (c :: f, t)
            | none =>
              match dropPref TYPE_SEP (c :: rest) with
              | some t => some ([], t)
              | none => none
          from rfl, hl, hd] at h
        simp only [Option.some.injEq, Prod.mk.injEq] at h
        obtain ⟨rfl, rfl⟩ := h
        have he : c :: rest = TYPE_SEP ++ t0 := (dropPref_eq_some _ _ _).mp hd
        constructor
        · simpa using he
        · rintro ⟨a, b, hab⟩
          have he2 : c :: rest = ';' :: (['t', 'y', 'p', 'e', '='] ++ t0) := he
          simp only [List.cons.injEq] at he2
          have hocc : ∃ a2 b2, rest = a2 ++ TYPE_SEP ++ b2 :=
            ⟨['t', 'y', 'p', 'e', '='] ++ a, b, by rw [he2.2, hab]; simp⟩
          exact absurd hocc ((lastTypeSplit_none rest).mp hl)
      | none =>
        rw [show lastTypeSplit (c :: rest) =
            match lastTypeSplit rest with
            | some (f, t) => some (c :: f, t)
            | none =>
              match dropPref TYPE_SEP (c :: rest) with
              | some t => some ([], t)
              | none => none
          from rfl, hl, hd] at h
        simp at h

/-- C2: for every token classified by the at-sign separator, the value is
split at the last occurrence of the literal substring type-equals preceded
by a semicolon: when such an occurrence exists the text before it is the
filename and the text after it the declared media type, otherwise the whole
value is the filename with no type; in particular the doubled suffix input
yields filename bar-semicolon-type-equals-qux and type qux. -/
theorem formFile_type_split :
    (∀ (J : Type) (pj : List Char → Option J) (s key value : List Char),
        split s = some (key, ['@'], value) →
        (∃ f t, value = f ++ TYPE_SEP ++ t ∧ (¬∃ a b, t = a ++ TYPE_SEP ++ b) ∧
            from_str pj s = .ok (.FormFile key f (some t))) ∨
          ((¬∃ a b, value = a ++ TYPE_SEP ++ b) ∧
            from_str pj s = .ok (.FormFile key value none))) ∧
    from_str pjNone ("foo@bar;type=qux;type=qux".toList)
      = .ok (.FormFile ("foo".toList) ("bar;type=qux".toList) (some ("qux".toList))) := by
  constructor
  · intro J pj s key value hsp
    cases hlt : lastTypeSplit value with
    | some ft =>
      obtain ⟨f, t⟩ := ft
      obtain ⟨he, hn⟩ := lastTypeSplit_some value f t hlt
      left
      exact ⟨f, t, he, hn, by simp [from_str, hsp, hlt]⟩
    | none =>
      right
      exact ⟨(lastTypeSplit_none value).mp hlt, by simp [from_str, hsp, hlt]⟩
  · decide

/-
  Builder lemmas: result shapes, emptiness, panic-freedom and error kinds.
-/

theorem insertAssoc_isEmpty : ∀ {J : Type} (m : List (List Char × J)) (k : List Char) (v : J),
    (insertAssoc m k v).isEmpty = false := by
  intro J m k v
  cases m with
  | nil => rfl
  | cons p rest =>
    obtain ⟨k2, v2⟩ := p
    by_cases h : k2 = k <;> simp [insertAssoc, h]

theorem bodyAsJsonAux_ok : ∀ {J : Type} (env : Env J) (items : List (RequestItem J))
    (acc : List (List Char × J)) (b : Body J),
    bodyAsJsonAux env items acc = .ok b →
    ∃ m, b = .Json m ∧ m.isEmpty = (acc.isEmpty && !items.any isFieldItem) := by
  intro J env items
  induction items with
  | nil =>
    intro acc b h
    simp only [bodyAsJsonAux, Except.ok.injEq] at h
    exact ⟨acc, h.symm, by simp⟩
  | cons item rest ih =>
    intro acc b h
    cases item with
    | JsonField key value =>
      rw [show bodyAsJsonAux env (RequestItem.JsonField key value :: rest) acc
          = bodyAsJsonAux env rest (insertAssoc acc key value) from rfl] at h
      obtain ⟨m, rfl, hm⟩ := ih _ b h
      exact ⟨m, rfl, by simp [hm, insertAssoc_isEmpty, isFieldItem]⟩
    | JsonFieldFromFile key path =>
      rw [show bodyAsJsonAux env (RequestItem.JsonFieldFromFile key path :: rest) acc
          = match env.readToString path with
            | none => .error (.ioErr path)
            | some contents =>
              match env.parseJson contents with
              | none => .error .jsonParseErr
              | some v => bodyAsJsonAux env rest (insertAssoc acc key v) from rfl] at h
      cases hr : env.readToString path with
      | none => rw [hr] at h; simp at h
      | some contents =>
        simp only [hr] at h
        cases hp : env.parseJson contents with
        | none => rw [hp] at h; simp at h
        | some v =>
          simp only [hp] at h
          obtain ⟨m, rfl, hm⟩ := ih _ b h
          exact ⟨m, rfl, by simp [hm, insertAssoc_isEmpty, isFieldItem]⟩
    | DataField key value =>
      rw [show bodyAsJsonAux env (RequestItem.DataField key value :: rest) acc
          = bodyAsJsonAux env rest (insertAssoc acc key (env.strVal value)) from rfl] at h
      obtain ⟨m, rfl, hm⟩ := ih _ b h
      exact ⟨m, rfl, by simp [hm, insertAssoc_isEmpty, isFieldItem]⟩
    | DataFieldFromFile key path =>
      rw [show bodyAsJsonAux env (RequestItem.DataFieldFromFile key path :: rest) acc
          = match env.readToString path with
            | none => .error (.ioErr path)
            | some contents => bodyAsJsonAux env rest (insertAssoc acc key (env.strVal contents))
          from rfl] at h
      cases hr : env.readToString path with
      | none => rw [hr] at h; simp at h
      | some contents =>
        simp only [hr] at h
        obtain ⟨m, rfl, hm⟩ := ih _ b h
        exact ⟨m, rfl, by simp [hm, insertAssoc_isEmpty, isFieldItem]⟩
    | FormFile key fileName fileType =>
      simp [bodyAsJsonAux] at h
    | HttpHeader key value =>
      rw [show bodyAsJsonAux env (RequestItem.HttpHeader key value :: rest) acc
          = bodyAsJsonAux env rest acc from rfl] at h
      obtain ⟨m, rfl, hm⟩ := ih _ b h
      exact ⟨m, rfl, by simp [hm, isFieldItem]⟩
    | HttpHeaderToUnset key =>
      rw [show bodyAsJsonAux env (RequestItem.HttpHeaderToUnset key :: rest) acc
          = bodyAsJsonAux env rest acc from rfl] at h
      obtain ⟨m, rfl, hm⟩ := ih _ b h
      exact ⟨m, rfl, by simp [hm, isFieldItem]⟩
    | UrlParam key value =>
      rw [show bodyAsJsonAux env (RequestItem.UrlParam key value :: rest) acc
          = bodyAsJsonAux env rest acc from rfl] at h
      obtain ⟨m, rfl, hm⟩ := ih _ b h
      exact ⟨m, rfl, by simp [hm, isFieldItem]⟩

theorem bodyAsFormAux_ok : ∀ {J : Type} (env : Env J) (items : List (RequestItem J))
    (acc : List (List Char × List Char)) (b : Body J),
    bodyAsFormAux env items acc = .ok b →
    ∃ l, b = .Form l ∧ l.isEmpty = (acc.isEmpty && !items.any isFieldItem) := by
  intro J env items
  induction items with
  | nil =>
    intro acc b h
    simp only [bodyAsFormAux, Except.ok.injEq] at h
    exact ⟨acc, h.symm, by simp⟩
  | cons item rest ih =>
    intro acc b h
    cases item with
    | JsonField key value => simp [bodyAsFormAux] at h
    | JsonFieldFromFile key path => simp [bodyAsFormAux] at h
    | DataField key value =>
      simp only [bodyAsFormAux] at h
      obtain ⟨l, rfl, hl⟩ := ih _ b h
      exact ⟨l, rfl, by simp [hl, isFieldItem]⟩
    | DataFieldFromFile key path =>
      simp only [bodyAsFormAux] at h
      cases hr : env.readToString path with
      | none => rw [hr] at h; simp at h
      | some contents =>
        simp only [hr] at h
        obtain ⟨l, rfl, hl⟩ := ih _ b h
        exact ⟨l, rfl, by simp [hl, isFieldItem]⟩
    | FormFile key fileName fileType => simp [bodyAsFormAux] at h
    | HttpHeader key value =>
      simp only [bodyAsFormAux] at h
      obtain ⟨l, rfl, hl⟩ := ih _ b h
      exact ⟨l, rfl, by simp [hl, isFieldItem]⟩
    | HttpHeaderToUnset key =>
      simp only [bodyAsFormAux] at h
      obtain ⟨l, rfl, hl⟩ := ih _ b h
      exact ⟨l, rfl, by simp [hl, isFieldItem]⟩
    | UrlParam key value =>
      simp only [bodyAsFormAux] at h
      obtain ⟨l, rfl, hl⟩ := ih _ b h
      exact ⟨l, rfl, by simp [hl, isFieldItem]⟩

theorem bodyAsMultipartAux_ok_shape : ∀ {J : Type} (env : Env J) (items : List (RequestItem J))
    (acc : List Part) (b : Body J),
    bodyAsMultipartAux env items acc = .ok b → ∃ ps, b = .Multipart ps := by
  intro J env items
  induction items with
  | nil =>
    intro acc b h
    simp only [bodyAsMultipartAux, Except.ok.injEq] at h
    exact ⟨acc, h.symm⟩
  | cons item rest ih =>
    intro acc b h
    cases item with
    | JsonField key value => simp [bodyAsMultipartAux] at h
    | JsonFieldFromFile key path => simp [bodyAsMultipartAux] at h
    | DataField key value =>
      simp only [bodyAsMultipartAux] at h
      exact ih _ b h
    | DataFieldFromFile key path =>
      simp only [bodyAsMultipartAux] at h
      cases hr : env.readToString path with
      | none => rw [hr] at h; simp at h
      | some contents =>
        simp only [hr] at h
        exact ih _ b h
    | FormFile key fileName fileType =>
      simp only [bodyAsMultipartAux] at h
      cases ho : env.openOk fileName with
      | false => rw [ho] at h; simp at h
      | true =>
        simp only [ho, if_true] at h
        cases fileType with
        | none => exact ih _ b h
        | some ty =>
          cases hm : env.mimeOk ty with
          | false => simp only [hm] at h; simp at h
          | true =>
            simp only [hm, if_true] at h
            exact ih _ b h
    | HttpHeader key value =>
      simp only [bodyAsMultipartAux] at h
      exact ih _ b h
    | HttpHeaderToUnset key =>
      simp only [bodyAsMultipartAux] at h
      exact ih _ b h
    | UrlParam key value =>
      simp only [bodyAsMultipartAux] at h
      exact ih _ b h

theorem bodyFromFileAux_ok_shape : ∀ {J : Type} (env : Env J) (items : List (RequestItem J))
    (acc : Option (Body J)) (b : Body J),
    (∀ bb, acc = some bb → ∃ f t, bb = .File f t) →
    bodyFromFileAux env items acc = .ok b → ∃ f t, b = .File f t := by
  intro J env items
  induction items with
  | nil =>
    intro acc b hacc h
    cases acc with
    | none => simp [bodyFromFileAux] at h
    | some bb =>
      simp only [bodyFromFileAux, Except.ok.injEq] at h
      exact h ▸ hacc bb rfl
  | cons item rest ih =>
    intro acc b hacc h
    cases item with
    | DataField key value => simp [bodyFromFileAux] at h
    | JsonField key value => simp [bodyFromFileAux] at h
    | DataFieldFromFile key path => simp [bodyFromFileAux] at h
    | JsonFieldFromFile key path => simp [bodyFromFileAux] at h
    | FormFile key fileName fileType =>
      simp only [bodyFromFileAux] at h
      by_cases hk : key = []
      · simp only [hk, if_true] at h
        cases acc with
        | some bb => simp at h
        | none =>
          cases horl : fileType.orElse (fun _ => env.mimeGuess fileName) with
          | some ty =>
            simp only [horl] at h
            cases hh : env.headerValueOk ty with
            | false => simp only [hh] at h; simp at h
            | true =>
              simp only [hh, if_true] at h
              refine ih _ b ?_ h
              intro bb hbb
              injection hbb with hbb2
              exact ⟨fileName, some ty, hbb2.symm⟩
          | none =>
            simp only [horl] at h
            refine ih _ b ?_ h
            intro bb hbb
            injection hbb with hbb2
            exact ⟨fileName, none, hbb2.symm⟩
      · simp only [if_neg hk] at h
        simp at h
    | HttpHeader key value =>
      simp only [bodyFromFileAux] at h
      exact ih _ b hacc h
    | HttpHeaderToUnset key =>
      simp only [bodyFromFileAux] at h
      exact ih _ b hacc h
    | UrlParam key value =>
      simp only [bodyFromFileAux] at h
      exact ih _ b hacc h

/-- C4: whenever body assembly succeeds, the representation of the produced
body is the one the dispatch table prescribes: multipart in Multipart mode,
multipart in Form mode with a FormFile present and form without, whole
body-from-file in JSON mode with a FormFile present and a JSON map without. -/
theorem body_dispatch_shape : ∀ (J : Type) (env : Env J) (items : List (RequestItem J))
    (mode : RequestType) (b : Body J),
    body env items mode = .ok b → b.shape = expectedShape mode (has_form_files items) := by
  intro J env items mode b hb
  cases mode with
  | Multipart =>
    obtain ⟨ps, rfl⟩ := bodyAsMultipartAux_ok_shape env items [] b hb
    simp [Body.shape, expectedShape]
  | Form =>
    cases hf : has_form_files items with
    | true =>
      rw [show body env items .Form = body_as_multipart env items by simp [body, hf]] at hb
      obtain ⟨ps, rfl⟩ := bodyAsMultipartAux_ok_shape env items [] b hb
      simp [Body.shape, expectedShape, hf]
    | false =>
      rw [show body env items .Form = body_as_form env items by simp [body, hf]] at hb
      obtain ⟨l, rfl, -⟩ := bodyAsFormAux_ok env items [] b hb
      simp [Body.shape, expectedShape, hf]
  | Json =>
    cases hf : has_form_files items with
    | true =>
      rw [show body env items .Json = body_from_file env items by simp [body, hf]] at hb
      rw [body_from_file] at hb
      by_cases hany : items.any isNonEmptyKeyFile = true
      · rw [if_pos hany] at hb
        simp at hb
      · rw [if_neg hany] at hb
        obtain ⟨f, t, rfl⟩ := bodyFromFileAux_ok_shape env items none b (by intro bb hbb; simp at hbb) hb
        simp [Body.shape, expectedShape, hf]
    | false =>
      rw [show body env items .Json = body_as_json env items by simp [body, hf]] at hb
      obtain ⟨m, rfl, -⟩ := bodyAsJsonAux_ok env items [] b hb
      simp [Body.shape, expectedShape, hf]

/-- Witness for the dispatch-table shape at a concrete collection. -/
theorem body_dispatch_shape_witness :
    body envU [RequestItem.FormFile [] ['f'] none] .Json = .ok (.File ['f'] none) ∧
    (Body.File ['f'] (none : Option (List Char)) : Body Unit).shape
      = expectedShape .Json
          (has_form_files ([RequestItem.FormFile [] ['f'] none] : List (RequestItem Unit))) :=
  ⟨by decide,
   body_dispatch_shape Unit envU [RequestItem.FormFile [] ['f'] none] .Json (.File ['f'] none)
     (by decide)⟩

theorem bodyAsMultipartAux_no_panic : ∀ {J : Type} (env : Env J) (items : List (RequestItem J))
    (acc : List Part), bodyAsMultipartAux env items acc ≠ .error .panicked := by
  intro J env items
  induction items with
  | nil => intro acc h; simp [bodyAsMultipartAux] at h
  | cons item rest ih =>
    intro acc h
    cases item with
    | JsonField key value => simp [bodyAsMultipartAux] at h
    | JsonFieldFromFile key path => simp [bodyAsMultipartAux] at h
    | DataField key value =>
      simp only [bodyAsMultipartAux] at h
      exact ih _ h
    | DataFieldFromFile key path =>
      simp only [bodyAsMultipartAux] at h
      cases hr : env.readToString path with
      | none => rw [hr] at h; simp at h
      | some contents =>
        simp only [hr] at h
        exact ih _ h
    | FormFile key fileName fileType =>
      simp only [bodyAsMultipartAux] at h
      cases ho : env.openOk fileName with
      | false => rw [ho] at h; simp at h
      | true =>
        simp only [ho, if_true] at h
        cases fileType with
        | none => exact ih _ h
        | some ty =>
          cases hm : env.mimeOk ty with
          | false => simp only [hm] at h; simp at h
          | true =>
            simp only [hm, if_true] at h
            exact ih _ h
    | HttpHeader key value =>
      simp only [bodyAsMultipartAux] at h
      exact ih _ h
    | HttpHeaderToUnset key =>
      simp only [bodyAsMultipartAux] at h
      exact ih _ h
    | UrlParam key value =>
      simp only [bodyAsMultipartAux] at h
      exact ih _ h

theorem bodyAsJsonAux_no_panic : ∀ {J : Type} (env : Env J) (items : List (RequestItem J))
    (acc : List (List Char × J)), has_form_files items = false →
    bodyAsJsonAux env items acc ≠ .error .panicked := by
  intro J env items
  induction items with
  | nil => intro acc _ h; simp [bodyAsJsonAux] at h
  | cons item rest ih =>
    intro acc hf h
    cases item with
    | JsonField key value =>
      simp only [bodyAsJsonAux] at h
      exact ih _ (by simpa [has_form_files] using hf) h
    | JsonFieldFromFile key path =>
      simp only [bodyAsJsonAux] at h
      cases hr : env.readToString path with
      | none => rw [hr] at h; simp at h
      | some contents =>
        simp only [hr] at h
        cases hp : env.parseJson contents with
        | none => rw [hp] at h; simp at h
        | some v =>
          simp only [hp] at h
          exact ih _ (by simpa [has_form_files] using hf) h
    | DataField key value =>
      simp only [bodyAsJsonAux] at h
      exact ih _ (by simpa [has_form_files] using hf) h
    | DataFieldFromFile key path =>
      simp only [bodyAsJsonAux] at h
      cases hr : env.readToString path with
      | none => rw [hr] at h; simp at h
      | some contents =>
        simp only [hr] at h
        exact ih _ (by simpa [has_form_files] using hf) h
    | FormFile key fileName fileType => simp [has_form_files] at hf
    | HttpHeader key value =>
      simp only [bodyAsJsonAux] at h
      exact ih _ (by simpa [has_form_files] using hf) h
    | HttpHeaderToUnset key =>
      simp only [bodyAsJsonAux] at h
      exact ih _ (by simpa [has_form_files] using hf) h
    | UrlParam key value =>
      simp only [bodyAsJsonAux] at h
      exact ih _ (by simpa [has_form_files] using hf) h

theorem bodyAsFormAux_no_panic : ∀ {J : Type} (env : Env J) (items : List (RequestItem J))
    (acc : List (List Char × List Char)), has_form_files items = false →
    bodyAsFormAux env items acc ≠ .error .panicked := by
  intro J env items
  induction items with
  | nil => intro acc _ h; simp [bodyAsFormAux] at h
  | cons item rest ih =>
    intro acc hf h
    cases item with
    | JsonField key value => simp [bodyAsFormAux] at h
    | JsonFieldFromFile key path => simp [bodyAsFormAux] at h
    | DataField key value =>
      simp only [bodyAsFormAux] at h
      exact ih _ (by simpa [has_form_files] using hf) h
    | DataFieldFromFile key path =>
      simp only [bodyAsFormAux] at h
      cases hr : env.readToString path with
      | none => rw [hr] at h; simp at h
      | some contents =>
        simp only [hr] at h
        exact ih _ (by simpa [has_form_files] using hf) h
    | FormFile key fileName fileType => simp [has_form_files] at hf
    | HttpHeader key value =>
      simp only [bodyAsFormAux] at h
      exact ih _ (by simpa [has_form_files] using hf) h
    | HttpHeaderToUnset key =>
      simp only [bodyAsFormAux] at h
      exact ih _ (by simpa [has_form_files] using hf) h
    | UrlParam key value =>
      simp only [bodyAsFormAux] at h
      exact ih _ (by simpa [has_form_files] using hf) h

theorem bodyFromFileAux_no_panic : ∀ {J : Type} (env : Env J) (items : List (RequestItem J))
    (acc : Option (Body J)),
    (∀ i ∈ items, isNonEmptyKeyFile i = false) →
    (acc.isSome = true ∨ has_form_files items = true) →
    bodyFromFileAux env items acc ≠ .error .panicked := by
  intro J env items
  induction items with
  | nil =>
    intro acc hno hsome h
    cases acc with
    | some bb => simp [bodyFromFileAux] at h
    | none =>
      rcases hsome with h1 | h1 <;> simp [has_form_files] at h1
  | cons item rest ih =>
    intro acc hno hsome h
    cases item with
    | DataField key value => simp [bodyFromFileAux] at h
    | JsonField key value => simp [bodyFromFileAux] at h
    | DataFieldFromFile key path => simp [bodyFromFileAux] at h
    | JsonFieldFromFile key path => simp [bodyFromFileAux] at h
    | FormFile key fileName fileType =>
      have hk0 := hno (.FormFile key fileName fileType) (List.mem_cons_self _ _)
      simp only [isNonEmptyKeyFile, Bool.not_eq_false'] at hk0
      have hk : key = [] := by simpa using hk0
      subst hk
      simp only [bodyFromFileAux, if_pos rfl] at h
      cases acc with
      | some bb => simp at h
      | none =>
        cases horl : fileType.orElse (fun _ => env.mimeGuess fileName) with
        | some ty =>
          simp only [horl] at h
          cases hh : env.headerValueOk ty with
          | false => simp only [hh] at h; simp at h
          | true =>
            simp only [hh, if_true] at h
            exact ih _ (fun i hi => hno i (List.mem_cons_of_mem _ hi)) (Or.inl (by simp)) h
        | none =>
          simp only [horl] at h
          exact ih _ (fun i hi => hno i (List.mem_cons_of_mem _ hi)) (Or.inl (by simp)) h
    | HttpHeader key value =>
      simp only [bodyFromFileAux] at h
      refine ih _ (fun i hi => hno i (List.mem_cons_of_mem _ hi)) ?_ h
      rcases hsome with h1 | h1
      · exact Or.inl h1
      · exact Or.inr (by simpa [has_form_files] using h1)
    | HttpHeaderToUnset key =>
      simp only [bodyFromFileAux] at h
      refine ih _ (fun i hi => hno i (List.mem_cons_of_mem _ hi)) ?_ h
      rcases hsome with h1 | h1
      · exact Or.inl h1
      · exact Or.inr (by simpa [has_form_files] using h1)
    | UrlParam key value =>
      simp only [bodyFromFileAux] at h
      refine ih _ (fun i hi => hno i (List.mem_cons_of_mem _ hi)) ?_ h
      rcases hsome with h1 | h1
      · exact Or.inl h1
      · exact Or.inr (by simpa [has_form_files] using h1)

/-- C8: body assembly never reaches a panic: the unreachable FormFile arms
of the JSON and form builders are dead because the dispatch table sends
collections with files elsewhere, the assert in body-from-file is dead
because of its upfront non-empty-key check, and its final extraction of the
single file body cannot fail because the builder is only selected when a
FormFile is present. -/
theorem body_no_panic : ∀ (J : Type) (env : Env J) (items : List (RequestItem J))
    (mode : RequestType), body env items mode ≠ .error .panicked := by
  intro J env items mode
  cases mode with
  | Multipart => exact bodyAsMultipartAux_no_panic env items []
  | Form =>
    cases hf : has_form_files items with
    | true =>
      rw [show body env items .Form = body_as_multipart env items by simp [body, hf]]
      exact bodyAsMultipartAux_no_panic env items []
    | false =>
      rw [show body env items .Form = body_as_form env items by simp [body, hf]]
      exact bodyAsFormAux_no_panic env items [] hf
  | Json =>
    cases hf : has_form_files items with
    | true =>
      rw [show body env items .Json = body_from_file env items by simp [body, hf]]
      rw [body_from_file]
      by_cases hany : items.any isNonEmptyKeyFile = true
      · rw [if_pos hany]
        simp
      · rw [if_neg hany]
        apply bodyFromFileAux_no_panic env items none
        · intro i hi
          cases hpi : isNonEmptyKeyFile i with
          | false => rfl
          | true => exact absurd (List.any_eq_true.mpr ⟨i, hi, hpi⟩) hany
        · exact Or.inr hf
    | false =>
      rw [show body env items .Json = body_as_json env items by simp [body, hf]]
      exact bodyAsJsonAux_no_panic env items [] hf

theorem pickMethodLoop_eq : ∀ {J : Type} (items : List (RequestItem J)),
    pickMethodLoop items = if items.any isFieldItem then Method.POST else Method.GET := by
  intro J items
  induction items with
  | nil => simp [pickMethodLoop]
  | cons item rest ih =>
    cases item <;> simp [pickMethodLoop, isFieldItem, ih]

theorem has_form_files_field : ∀ {J : Type} (items : List (RequestItem J)),
    has_form_files items = true → items.any isFieldItem = true := by
  intro J items h
  rcases List.any_eq_true.mp h with ⟨x, hx, hpx⟩
  refine List.any_eq_true.mpr ⟨x, hx, ?_⟩
  cases x <;> simp_all [isFieldItem]

/-- C7: the items-based is_multipart helper returns true exactly when the
dispatch table builds a multipart body; the items-based pick_method returns
POST exactly when the mode is Multipart or a data, JSON or file item is
present, and GET otherwise; and whenever body assembly succeeds, both
helpers agree with the corresponding Body methods on the assembled body. -/
theorem helpers_consistent :
    (∀ (J : Type) (items : List (RequestItem J)) (mode : RequestType),
      RequestItems.is_multipart items mode = true ↔
        (mode = .Multipart ∨ (mode = .Form ∧ has_form_files items = true))) ∧
    (∀ (J : Type) (items : List (RequestItem J)) (mode : RequestType),
      RequestItems.pick_method items mode = .POST ↔
        (mode = .Multipart ∨ items.any isFieldItem = true)) ∧
    (∀ (J : Type) (env : Env J) (items : List (RequestItem J)) (mode : RequestType) (b : Body J),
      body env items mode = .ok b →
        RequestItems.is_multipart items mode = b.is_multipart ∧
        RequestItems.pick_method items mode = b.pick_method) := by
  refine ⟨?_, ?_, ?_⟩
  · intro J items mode
    cases mode <;> simp [RequestItems.is_multipart]
  · intro J items mode
    cases mode with
    | Multipart => simp [RequestItems.pick_method]
    | Form =>
      simp only [RequestItems.pick_method, pickMethodLoop_eq]
      cases hany : items.any isFieldItem <;> simp [hany]
    | Json =>
      simp only [RequestItems.pick_method, pickMethodLoop_eq]
      cases hany : items.any isFieldItem <;> simp [hany]
  · intro J env items mode b hb
    cases mode with
    | Multipart =>
      obtain ⟨ps, rfl⟩ := bodyAsMultipartAux_ok_shape env items [] b hb
      constructor
      · simp [RequestItems.is_multipart, Body.is_multipart]
      · simp [RequestItems.pick_method, Body.pick_method, Body.is_empty]
    | Form =>
      cases hf : has_form_files items with
      | true =>
        rw [show body env items .Form = body_as_multipart env items by simp [body, hf]] at hb
        obtain ⟨ps, rfl⟩ := bodyAsMultipartAux_ok_shape env items [] b hb
        have hfield := has_form_files_field items hf
        constructor
        · simp [RequestItems.is_multipart, Body.is_multipart, hf]
        · simp [RequestItems.pick_method, Body.pick_method, Body.is_empty,
            pickMethodLoop_eq, hfield]
      | false =>
        rw [show body env items .Form = body_as_form env items by simp [body, hf]] at hb
        obtain ⟨l, rfl, hl⟩ := bodyAsFormAux_ok env items [] b hb
        simp only [List.isEmpty_nil, Bool.true_and] at hl
        constructor
        · simp [RequestItems.is_multipart, Body.is_multipart, hf]
        · simp only [RequestItems.pick_method, Body.pick_method, Body.is_empty,
            pickMethodLoop_eq, hl]
          cases hany : items.any isFieldItem <;> simp [hany]
    | Json =>
      cases hf : has_form_files items with
      | true =>
        rw [show body env items .Json = body_from_file env items by simp [body, hf]] at hb
        rw [body_from_file] at hb
        by_cases hany : items.any isNonEmptyKeyFile = true
        · rw [if_pos hany] at hb
          simp at hb
        · rw [if_neg hany] at hb
          obtain ⟨f, t, rfl⟩ :=
            bodyFromFileAux_ok_shape env items none b (by intro bb hbb; simp at hbb) hb
          have hfield := has_form_files_field items hf
          constructor
          · simp [RequestItems.is_multipart, Body.is_multipart]
          · simp [RequestItems.pick_method, Body.pick_method, Body.is_empty,
              pickMethodLoop_eq, hfield]
      | false =>
        rw [show body env items .Json = body_as_json env items by simp [body, hf]] at hb
        obtain ⟨m, rfl, hm⟩ := bodyAsJsonAux_ok env items [] b hb
        simp only [List.isEmpty_nil, Bool.true_and] at hm
        constructor
        · simp [RequestItems.is_multipart, Body.is_multipart]
        · simp only [RequestItems.pick_method, Body.pick_method, Body.is_empty,
            pickMethodLoop_eq, hm]
          cases hany : items.any isFieldItem <;> simp [hany]

/-- Witness for helper consistency at a concrete collection and mode. -/
theorem helpers_consistent_witness :
    body envU [RequestItem.DataField ['a'] ['b']] .Form
      = .ok (.Form [(['a'], ['b'])]) ∧
    (RequestItems.is_multipart ([RequestItem.DataField ['a'] ['b']] : List (RequestItem Unit)) .Form
        = (Body.Form [(['a'], ['b'])] : Body Unit).is_multipart ∧
      RequestItems.pick_method ([RequestItem.DataField ['a'] ['b']] : List (RequestItem Unit)) .Form
        = (Body.Form [(['a'], ['b'])] : Body Unit).pick_method) :=
  ⟨by decide,
   helpers_consistent.2.2 Unit envU [RequestItem.DataField ['a'] ['b']] .Form
     (.Form [(['a'], ['b'])]) (by decide)⟩

theorem bodyAsJsonAux_not_incompat : ∀ {J : Type} (env : Env J) (items : List (RequestItem J))
    (acc : List (List Char × J)) (e : BodyError),
    bodyAsJsonAux env items acc = .error e → isModeIncompat e = false := by
  intro J env items
  induction items with
  | nil => intro acc e h; simp [bodyAsJsonAux] at h
  | cons item rest ih =>
    intro acc e h
    cases item with
    | JsonField key value =>
      simp only [bodyAsJsonAux] at h
      exact ih _ e h
    | JsonFieldFromFile key path =>
      simp only [bodyAsJsonAux] at h
      cases hr : env.readToString path with
      | none =>
        rw [hr] at h
        simp only [Except.error.injEq] at h
        subst h
        rfl
      | some contents =>
        simp only [hr] at h
        cases hp : env.parseJson contents with
        | none =>
          rw [hp] at h
          simp only [Except.error.injEq] at h
          subst h
          rfl
        | some v =>
          simp only [hp] at h
          exact ih _ e h
    | DataField key value =>
      simp only [bodyAsJsonAux] at h
      exact ih _ e h
    | DataFieldFromFile key path =>
      simp only [bodyAsJsonAux] at h
      cases hr : env.readToString path with
      | none =>
        rw [hr] at h
        simp only [Except.error.injEq] at h
        subst h
        rfl
      | some contents =>
        simp only [hr] at h
        exact ih _ e h
    | FormFile key fileName fileType =>
      simp only [bodyAsJsonAux, Except.error.injEq] at h
      subst h
      rfl
    | HttpHeader key value =>
      simp only [bodyAsJsonAux] at h
      exact ih _ e h
    | HttpHeaderToUnset key =>
      simp only [bodyAsJsonAux] at h
      exact ih _ e h
    | UrlParam key value =>
      simp only [bodyAsJsonAux] at h
      exact ih _ e h

theorem bodyAsFormAux_incompat : ∀ {J : Type} (env : Env J) (items : List (RequestItem J))
    (acc : List (List Char × List Char)),
    Env.good env → has_form_files items = false →
    ((∃ e, bodyAsFormAux env items acc = .error e ∧ isModeIncompat e = true) ↔
      items.any isJsonItem = true) := by
  intro J env items
  induction items with
  | nil =>
    intro acc _ _
    simp [bodyAsFormAux]
  | cons item rest ih =>
    intro acc hg hf
    cases item with
    | JsonField key value =>
      simp [bodyAsFormAux, isJsonItem, isModeIncompat]
    | JsonFieldFromFile key path =>
      simp [bodyAsFormAux, isJsonItem, isModeIncompat]
    | DataField key value =>
      rw [show bodyAsFormAux env (RequestItem.DataField key value :: rest) acc
          = bodyAsFormAux env rest (acc ++ [(key, value)]) from rfl]
      rw [ih _ hg (by simpa [has_form_files] using hf)]
      simp [isJsonItem]
    | DataFieldFromFile key path =>
      obtain ⟨c, hc⟩ := Option.isSome_iff_exists.mp (hg.1 path)
      rw [show bodyAsFormAux env (RequestItem.DataFieldFromFile key path :: rest) acc
          = match env.readToString path with
            | none => .error (.ioErr path)
            | some contents => bodyAsFormAux env rest (acc ++ [(key, contents)]) from rfl, hc]
      rw [ih _ hg (by simpa [has_form_files] using hf)]
      simp [isJsonItem]
    | FormFile key fileName fileType => simp [has_form_files] at hf
    | HttpHeader key value =>
      rw [show bodyAsFormAux env (RequestItem.HttpHeader key value :: rest) acc
          = bodyAsFormAux env rest acc from rfl]
      rw [ih _ hg (by simpa [has_form_files] using hf)]
      simp [isJsonItem]
    | HttpHeaderToUnset key =>
      rw [show bodyAsFormAux env (RequestItem.HttpHeaderToUnset key :: rest) acc
          = bodyAsFormAux env rest acc from rfl]
      rw [ih _ hg (by simpa [has_form_files] using hf)]
      simp [isJsonItem]
    | UrlParam key value =>
      rw [show bodyAsFormAux env (RequestItem.UrlParam key value :: rest) acc
          = bodyAsFormAux env rest acc from rfl]
      rw [ih _ hg (by simpa [has_form_files] using hf)]
      simp [isJsonItem]

theorem bodyAsMultipartAux_incompat : ∀ {J : Type} (env : Env J) (items : List (RequestItem J))
    (acc : List Part),
    Env.good env →
    ((∃ e, bodyAsMultipartAux env items acc = .error e ∧ isModeIncompat e = true) ↔
      items.any isJsonItem = true) := by
  intro J env items
  induction items with
  | nil =>
    intro acc _
    simp [bodyAsMultipartAux]
  | cons item rest ih =>
    intro acc hg
    cases item with
    | JsonField key value =>
      simp [bodyAsMultipartAux, isJsonItem, isModeIncompat]
    | JsonFieldFromFile key path =>
      simp [bodyAsMultipartAux, isJsonItem, isModeIncompat]
    | DataField key value =>
      rw [show bodyAsMultipartAux env (RequestItem.DataField key value :: rest) acc
          = bodyAsMultipartAux env rest (acc ++ [.text key value]) from rfl]
      rw [ih _ hg]
      simp [isJsonItem]
    | DataFieldFromFile key path =>
      obtain ⟨c, hc⟩ := Option.isSome_iff_exists.mp (hg.1 path)
      rw [show bodyAsMultipartAux env (RequestItem.DataFieldFromFile key path :: rest) acc
          = match env.readToString path with
            | none => .error (.ioErr path)
            | some contents => bodyAsMultipartAux env rest (acc ++ [.text key contents])
          from rfl, hc]
      rw [ih _ hg]
      simp [isJsonItem]
    | FormFile key fileName fileType =>
      cases fileType with
      | some ty =>
        rw [show bodyAsMultipartAux env (RequestItem.FormFile key fileName (some ty) :: rest) acc
            = if env.openOk fileName then
                if env.mimeOk ty then
                  bodyAsMultipartAux env rest (acc ++ [.filePart key fileName (some ty)])
                else .error .mimeErr
              else .error (.ioErr fileName) from rfl]
        rw [if_pos (hg.2.1 fileName), if_pos (hg.2.2.1 ty), ih _ hg]
        simp [isJsonItem]
      | none =>
        rw [show bodyAsMultipartAux env (RequestItem.FormFile key fileName none :: rest) acc
            = if env.openOk fileName then
                bodyAsMultipartAux env rest (acc ++ [.filePart key fileName none])
              else .error (.ioErr fileName) from rfl]
        rw [if_pos (hg.2.1 fileName), ih _ hg]
        simp [isJsonItem]
    | HttpHeader key value =>
      rw [show bodyAsMultipartAux env (RequestItem.HttpHeader key value :: rest) acc
          = bodyAsMultipartAux env rest acc from rfl]
      rw [ih _ hg]
      simp [isJsonItem]
    | HttpHeaderToUnset key =>
      rw [show bodyAsMultipartAux env (RequestItem.HttpHeaderToUnset key :: rest) acc
          = bodyAsMultipartAux env rest acc from rfl]
      rw [ih _ hg]
      simp [isJsonItem]
    | UrlParam key value =>
      rw [show bodyAsMultipartAux env (RequestItem.UrlParam key value :: rest) acc
          = bodyAsMultipartAux env rest acc from rfl]
      rw [ih _ hg]
      simp [isJsonItem]

theorem bodyFromFileAux_incompat : ∀ {J : Type} (env : Env J) (items : List (RequestItem J))
    (acc : Option (Body J)),
    Env.good env → (∀ i ∈ items, isNonEmptyKeyFile i = false) →
    ((∃ e, bodyFromFileAux env items acc = .error e ∧ isModeIncompat e = true) ↔
      (items.any isKeyedField = true ∨
        2 ≤ items.countP (fun i => isEmptyKeyFile i) + (if acc.isSome then 1 else 0))) := by
  intro J env items
  induction items with
  | nil =>
    intro acc _ _
    cases acc with
    | none => simp [bodyFromFileAux, isModeIncompat]
    | some bb => simp [bodyFromFileAux]
  | cons item rest ih =>
    intro acc hg hno
    cases item with
    | DataField key value =>
      simp [bodyFromFileAux, isKeyedField, isModeIncompat]
    | JsonField key value =>
      simp [bodyFromFileAux, isKeyedField, isModeIncompat]
    | DataFieldFromFile key path =>
      simp [bodyFromFileAux, isKeyedField, isModeIncompat]
    | JsonFieldFromFile key path =>
      simp [bodyFromFileAux, isKeyedField, isModeIncompat]
    | FormFile key fileName fileType =>
      have hk0 := hno (.FormFile key fileName fileType) (List.mem_cons_self _ _)
      simp only [isNonEmptyKeyFile, Bool.not_eq_false'] at hk0
      have hk : key = [] := by simpa using hk0
      subst hk
      cases acc with
      | some bb =>
        rw [show bodyFromFileAux env (RequestItem.FormFile [] fileName fileType :: rest) (some bb)
            = .error .multipleFiles from rfl]
        simp [isKeyedField, isEmptyKeyFile, isModeIncompat, List.countP_cons]
      | none =>
        rw [show bodyFromFileAux env (RequestItem.FormFile [] fileName fileType :: rest) none
            = match fileType.orElse (fun _ => env.mimeGuess fileName) with
              | some ty =>
                if env.headerValueOk ty then
                  bodyFromFileAux env rest (some (.File fileName (some ty)))
                else .error .headerValueErr
              | none => bodyFromFileAux env rest (some (.File fileName none)) from rfl]
        cases horl : fileType.orElse (fun _ => env.mimeGuess fileName) with
        | some ty =>
          simp only [horl]
          rw [if_pos (hg.2.2.2 ty)]
          rw [ih _ hg (fun i hi => hno i (List.mem_cons_of_mem _ hi))]
          simp [isKeyedField, isEmptyKeyFile, List.countP_cons]
        | none =>
          simp only [horl]
          rw [ih _ hg (fun i hi => hno i (List.mem_cons_of_mem _ hi))]
          simp [isKeyedField, isEmptyKeyFile, List.countP_cons]
    | HttpHeader key value =>
      rw [show bodyFromFileAux env (RequestItem.HttpHeader key value :: rest) acc
          = bodyFromFileAux env rest acc from rfl]
      rw [ih _ hg (fun i hi => hno i (List.mem_cons_of_mem _ hi))]
      simp [isKeyedField, isEmptyKeyFile, List.countP_cons]
    | HttpHeaderToUnset key =>
      rw [show bodyFromFileAux env (RequestItem.HttpHeaderToUnset key :: rest) acc
          = bodyFromFileAux env rest acc from rfl]
      rw [ih _ hg (fun i hi => hno i (List.mem_cons_of_mem _ hi))]
      simp [isKeyedField, isEmptyKeyFile, List.countP_cons]
    | UrlParam key value =>
      rw [show bodyFromFileAux env (RequestItem.UrlParam key value :: rest) acc
          = bodyFromFileAux env rest acc from rfl]
      rw [ih _ hg (fun i hi => hno i (List.mem_cons_of_mem _ hi))]
      simp [isKeyedField, isEmptyKeyFile, List.countP_cons]

/-- C6: when no external operation fails, body assembly raises a
mode-incompatibility error exactly when a JsonField or JsonFieldFromFile is
present while a form or multipart body is being built, or, in the JSON-mode
body-from-file path, a FormFile with a non-empty key is present, a keyed
data or JSON field is present, or more than one empty-key FormFile is
present. -/
theorem mode_incompat_iff : ∀ (J : Type) (env : Env J) (items : List (RequestItem J))
    (mode : RequestType),
    Env.good env →
    ((∃ e, body env items mode = .error e ∧ isModeIncompat e = true) ↔
      incompatSituation items mode) := by
  intro J env items mode hg
  cases mode with
  | Multipart =>
    rw [show body env items .Multipart = bodyAsMultipartAux env items [] from rfl]
    rw [bodyAsMultipartAux_incompat env items [] hg]
    simp [incompatSituation, expectedShape]
  | Form =>
    cases hf : has_form_files items with
    | true =>
      rw [show body env items .Form = body_as_multipart env items by simp [body, hf]]
      rw [show body_as_multipart env items = bodyAsMultipartAux env items [] from rfl]
      rw [bodyAsMultipartAux_incompat env items [] hg]
      simp [incompatSituation, expectedShape, hf]
    | false =>
      rw [show body env items .Form = body_as_form env items by simp [body, hf]]
      rw [show body_as_form env items = bodyAsFormAux env items [] from rfl]
      rw [bodyAsFormAux_incompat env items [] hg hf]
      simp [incompatSituation, expectedShape, hf]
  | Json =>
    cases hf : has_form_files items with
    | false =>
      rw [show body env items .Json = body_as_json env items by simp [body, hf]]
      rw [show body_as_json env items = bodyAsJsonAux env items [] from rfl]
      constructor
      · rintro ⟨e, he, hinc⟩
        rw [bodyAsJsonAux_not_incompat env items [] e he] at hinc
        exact absurd hinc (by simp)
      · intro hsit
        exfalso
        rcases hsit with ⟨hshape, -⟩ | ⟨-, hff, -⟩
        · rcases hshape with h1 | h1 <;> simp [expectedShape, hf] at h1
        · rw [hf] at hff
          exact absurd hff (by simp)
    | true =>
      rw [show body env items .Json = body_from_file env items by simp [body, hf]]
      rw [body_from_file]
      by_cases hany : items.any isNonEmptyKeyFile = true
      · rw [if_pos hany]
        constructor
        · intro _
          right
          exact ⟨rfl, hf, Or.inl hany⟩
        · intro _
          exact ⟨.fileFieldNonEmptyKey, rfl, rfl⟩
      · rw [if_neg hany]
        have hany2 : items.any isNonEmptyKeyFile = false := by
          cases h : items.any isNonEmptyKeyFile
          · rfl
          · exact absurd h hany
        have hno : ∀ i ∈ items, isNonEmptyKeyFile i = false := by
          intro i hi
          cases hpi : isNonEmptyKeyFile i
          · rfl
          · exact absurd (List.any_eq_true.mpr ⟨i, hi, hpi⟩) hany
        rw [bodyFromFileAux_incompat env items none hg hno]
        have hzero : (2 ≤ items.countP (fun i => isEmptyKeyFile i)
              + (if (none : Option (Body J)).isSome then 1 else 0)) ↔
            2 ≤ items.countP (fun i => isEmptyKeyFile i) := by
          simp
        rw [hzero]
        constructor
        · rintro (hk | hc)
          · exact Or.inr ⟨rfl, hf, Or.inr (Or.inl hk)⟩
          · exact Or.inr ⟨rfl, hf, Or.inr (Or.inr hc)⟩
        · rintro (⟨hshape, -⟩ | ⟨-, -, h3⟩)
          · rcases hshape with h1 | h1 <;> simp [expectedShape, hf] at h1
          · rcases h3 with h3 | h3 | h3
            · rw [hany2] at h3
              exact absurd h3 (by simp)
            · exact Or.inl h3
            · exact Or.inr h3

/-- Witness for the mode-incompatibility characterization at a concrete
collection: a structured field in Form mode. -/
theorem mode_incompat_iff_witness :
    (∃ e, body envU [RequestItem.JsonField ['a'] ()] .Form = .error e ∧ isModeIncompat e = true) ↔
      incompatSituation [RequestItem.JsonField ['a'] ()] .Form :=
  mode_incompat_iff Unit envU [RequestItem.JsonField ['a'] ()] .Form
    ⟨fun _ => rfl, fun _ => rfl, fun _ => rfl, fun _ => rfl⟩

/-- Witness for the last-occurrence rule at a concrete token. -/
theorem formFile_type_split_witness :
    split ("a@b;type=c".toList) = some ("a".toList, ['@'], "b;type=c".toList) ∧
    ((∃ f t, "b;type=c".toList = f ++ TYPE_SEP ++ t ∧ (¬∃ a b, t = a ++ TYPE_SEP ++ b) ∧
        from_str pjNone ("a@b;type=c".toList) = .ok (.FormFile ("a".toList) f (some t))) ∨
      ((¬∃ a b, "b;type=c".toList = a ++ TYPE_SEP ++ b) ∧
        from_str pjNone ("a@b;type=c".toList)
          = .ok (.FormFile ("a".toList) ("b;type=c".toList) none))) :=
  ⟨by decide,
   formFile_type_split.1 Unit pjNone ("a@b;type=c".toList) ("a".toList) ("b;type=c".toList)
     (by decide)⟩

end Xh
